import Mathlib

/-!
# ShortsAI — verification of the segment-scoring/selection engine and frontend validation

Shallow embedding of the ShortsAI repository (YouTube-to-Shorts generator).

The frontend URL validation (`frontend/src/lib/utils.js::isValidYouTubeUrl`,
`frontend/src/App.jsx::handleSubmit`) is embedded directly from the JavaScript
source. The backend engine (score fusion, segment selection, job pipeline,
`backend/services/ai_detector.py`, `backend/server.py`) is not part of the
source tree available here; those components are modelled from the
specification's words (each such definition carries a doc comment starting
with "Modelled from the spec:"). Scores, weights and timestamps are modelled
as rationals (`ℚ`), which make the stated weight/score identities exact.
-/

/- ========================================================================
   Part 1 — Frontend URL validation, embedded from
   `src/frontend/src/lib/utils.js` (a.k.a. src/unnamed/part_000) and
   `src/frontend/src/App.jsx`.
   ======================================================================== -/

/-- Character class `[a-zA-Z0-9_-]` from the URL regexes in `utils.js`. -/
def isIdChar (c : Char) : Bool :=
  ('a' ≤ c && c ≤ 'z') || ('A' ≤ c && c ≤ 'Z') || ('0' ≤ c && c ≤ '9') ||
    c == '_' || c == '-'

/-- Strip a literal character sequence from the front of the input, if present. -/
def dropLit : List Char → List Char → Option (List Char)
  | [], s => some s
  | _ :: _, [] => none
  | c :: p, d :: s => if c = d then dropLit p s else none

/-- All ways to consume an optional group whose body is one of `alts`
(regex `(alt1|alt2|…)?`): either skip the group or consume one alternative. -/
def afterOpt (alts : List (List Char)) (s : List Char) : List (List Char) :=
  s :: alts.filterMap (fun a => dropLit a s)

/-- The scheme group `(https?:\/\/)?` of every pattern in `utils.js`. -/
def schemeAlts : List (List Char) :=
  ["http://".data, "https://".data]

/-- Tail test shared by all four regexes: exactly 11 characters of
`[a-zA-Z0-9_-]` must follow (the video id); the regexes are not `$`-anchored,
so anything may follow the id. -/
def idTail (s : List Char) : Bool :=
  11 ≤ s.length && (s.take 11).all isIdChar

/-- Match the fixed host/path literal of one pattern and then the video id. -/
def matchHostPath (lit : List Char) (s : List Char) : Bool :=
  match dropLit lit s with
  | none => false
  | some rest => idTail rest

/-- The four accepted YouTube URL patterns of `isValidYouTubeUrl` in
`utils.js`: host/path literal plus whether the pattern allows a `(www\.)?`
group. -/
def patternTable : List (String × Bool) :=
  [("youtube.com/watch?v=", true),
   ("youtube.com/embed/", true),
   ("youtu.be/", false),
   ("youtube.com/shorts/", true)]

/-- `pattern.test(url)` for one of the four anchored regexes: optional scheme,
optional `www.` (where allowed), the host/path literal, an 11-character id. -/
def testPattern (s : List Char) (lit : String) (allowWWW : Bool) : Bool :=
  (afterOpt schemeAlts s).any fun s1 =>
    (if allowWWW then afterOpt ["www.".data] s1 else [s1]).any fun s2 =>
      matchHostPath lit.data s2

/-- `isValidYouTubeUrl` from `frontend/src/lib/utils.js`: falsy input is
rejected, otherwise the url must match one of the four patterns. -/
def isValidYouTubeUrl (url : String) : Bool :=
  if url = "" then false
  else patternTable.any fun pr => testPattern url.data pr.1 pr.2

/-- Observable outcome of one `handleSubmit` call in `App.jsx`: the
`processVideo(url, duration, clip_count)` request if one was issued, and the
validation error message if one was set. -/
structure SubmitOutcome where
  request : Option (String × ℕ × ℕ)
  validationError : Option String
deriving DecidableEq, Repr

/-- `handleSubmit` from `frontend/src/App.jsx` (lines 94–118): if
`isValidYouTubeUrl(url)` is false it sets the validation error and returns
without calling `processVideo`; otherwise it clears the error and calls
`processVideo(url, duration, clipCount)`. -/
def handleSubmit (url : String) (duration clipCount : ℕ) : SubmitOutcome :=
  if !isValidYouTubeUrl url then
    { request := none, validationError := some "Please enter a valid YouTube URL" }
  else
    { request := some (url, duration, clipCount), validationError := none }

/- ========================================================================
   Part 2 — Signal analyzers and score fusion.
   The backend implementation (`backend/services/ai_detector.py`) is not in
   the available source tree; the definitions below are modelled from the
   specification (spec.md §4.1–§4.2, README "AI Detection Algorithm").
   ======================================================================== -/

/-- Modelled from the spec: the five signal analyzers of §4.1 (the backend
service `ai_detector.py` is missing from the tree). -/
inductive Analyzer
  | semantic
  | audio
  | motion
  | scene
  | faces
deriving DecidableEq, Repr

/-- The fixed enumeration of the five analyzers. -/
def analyzers : List Analyzer :=
  [Analyzer.semantic, Analyzer.audio, Analyzer.motion, Analyzer.scene, Analyzer.faces]

/-- Modelled from the spec: default weight table when all five analyzers are
available — semantic 0.30, audio 0.20, motion 0.20, scene 0.15, faces 0.15
(spec.md §4.2, README weights). -/
def defaultWeights : Analyzer → ℚ
  | Analyzer.semantic => 3 / 10
  | Analyzer.audio => 1 / 5
  | Analyzer.motion => 1 / 5
  | Analyzer.scene => 3 / 20
  | Analyzer.faces => 3 / 20

/-- Modelled from the spec: the four-signal fallback table used when the
semantic (Ollama) analyzer is unavailable — audio 0.30, motion 0.25,
scene 0.20, faces 0.25 (spec.md §4.2, README line 188). -/
def fallbackWeights : Analyzer → ℚ
  | Analyzer.semantic => 0
  | Analyzer.audio => 3 / 10
  | Analyzer.motion => 1 / 4
  | Analyzer.scene => 1 / 5
  | Analyzer.faces => 1 / 4

/-- Total weight carried by the available analyzers. -/
def availTotal (w : Analyzer → ℚ) (avail : Analyzer → Bool) : ℚ :=
  ((analyzers.filter avail).map w).sum

/-- Modelled from the spec: "drop unavailable analyzers and rescale remaining
weights to sum to 1.0, preserving their relative ratios" (spec.md §4.2). -/
def renormalize (w : Analyzer → ℚ) (avail : Analyzer → Bool) : Analyzer → ℚ :=
  fun a => if avail a then w a / availTotal w avail else 0

/-- Availability pattern in which exactly the semantic analyzer is missing. -/
def onlySemanticUnavailable : Analyzer → Bool :=
  fun a => decide (a ≠ Analyzer.semantic)

/-- Modelled from the spec: the active weight table of a fusion call. When the
semantic analyzer alone is unavailable the spec prescribes the hard-coded
four-signal fallback table; any other unavailability pattern is handled by
renormalizing the default table (spec.md §4.2). -/
def activeWeights (avail : Analyzer → Bool) : Analyzer → ℚ :=
  if !avail Analyzer.semantic && avail Analyzer.audio && avail Analyzer.motion &&
      avail Analyzer.scene && avail Analyzer.faces then
    fallbackWeights
  else
    renormalize defaultWeights avail

/-- Modelled from the spec: one sample of the common timestamp grid — a
timestamp plus the normalized score of each analyzer that produced one there
(spec.md §3 "Sample"). -/
structure Sample where
  t : ℚ
  scores : Analyzer → Option ℚ

/-- Weighted contribution of one analyzer at one sample: weight times score
when the analyzer produced a score there, zero otherwise. -/
def contrib (w : Analyzer → ℚ) (sc : Analyzer → Option ℚ) (a : Analyzer) : ℚ :=
  match sc a with
  | some v => w a * v
  | none => 0

/-- Modelled from the spec: "fused score at each timestamp = weighted sum of
per-analyzer normalized scores present at that timestamp" (spec.md §4.2). -/
def fusedScore (w : Analyzer → ℚ) (sc : Analyzer → Option ℚ) : ℚ :=
  (analyzers.map (contrib w sc)).sum

/-- Modelled from the spec: `fuse(samples, weight_table) → EngagementCurve`;
the curve carries one (timestamp, fused score) point per grid sample
(spec.md §4.2; the human-readable "reasons" are not needed by any claim). -/
def fuse (samples : List Sample) (w : Analyzer → ℚ) : List (ℚ × ℚ) :=
  samples.map fun s => (s.t, fusedScore w s.scores)

/- ========================================================================
   Part 3 — Segment selector.
   Modelled from spec.md §4.3 and the README's `select_best_segments`
   pseudo-code (src/unnamed/part_006 lines 268–279); the backend module is
   missing from the tree.
   ======================================================================== -/

/-- Modelled from the spec: a selected time window — start, end
(end − start = requested clip duration) and aggregate score (spec.md §3). -/
structure Segment where
  start : ℚ
  stop : ℚ
  score : ℚ
deriving DecidableEq, Repr

/-- Media duration as spanned by the engagement curve (its last/maximal
timestamp; the curve covers the full media duration, spec.md §3). -/
def mediaDuration (curve : List (ℚ × ℚ)) : ℚ :=
  (curve.map Prod.fst).foldr max 0

/-- Modelled from the spec: candidate start times — a window of length `d`
slides across the curve at a 1-second stride, staying inside the media
(spec.md §4.3). No candidate exists when the window is longer than the
media. -/
def candidateStarts (dur d : ℚ) : List ℚ :=
  if d ≤ dur then (List.range ((⌊dur - d⌋).toNat + 1)).map (fun n => (n : ℚ))
  else []

/-- Modelled from the spec: a candidate's score is the maximum fused score
inside its span (spec.md §4.3). -/
def windowScore (curve : List (ℚ × ℚ)) (s d : ℚ) : ℚ :=
  ((curve.filter fun p => decide (s ≤ p.1) && decide (p.1 ≤ s + d)).map Prod.snd).foldr max 0

/-- Modelled from the spec: the candidate segments generated by the sliding
window (spec.md §4.3). -/
def mkCandidates (curve : List (ℚ × ℚ)) (d : ℚ) : List Segment :=
  (candidateStarts (mediaDuration curve) d).map fun s => ⟨s, s + d, windowScore curve s d⟩

/-- Modelled from the spec: candidate ranking order — descending score with
ties broken in favor of the earlier start time (spec.md §4.3). -/
def scoreOrder (a b : Segment) : Prop :=
  b.score < a.score ∨ (a.score = b.score ∧ a.start ≤ b.start)

instance : DecidableRel scoreOrder :=
  fun a b => inferInstanceAs (Decidable (b.score < a.score ∨ (a.score = b.score ∧ a.start ≤ b.start)))

instance : IsTotal Segment scoreOrder where
  total a b := by
    rcases lt_trichotomy a.score b.score with h | h | h
    · exact Or.inr (Or.inl h)
    · rcases le_total a.start b.start with h2 | h2
      · exact Or.inl (Or.inr ⟨h, h2⟩)
      · exact Or.inr (Or.inr ⟨h.symm, h2⟩)
    · exact Or.inl (Or.inl h)

instance : IsTrans Segment scoreOrder where
  trans a b c hab hbc := by
    rcases hab with h1 | ⟨h1, h1s⟩ <;> rcases hbc with h2 | ⟨h2, h2s⟩
    · exact Or.inl (lt_trans h2 h1)
    · exact Or.inl (by rw [← h2]; exact h1)
    · exact Or.inl (by rw [h1]; exact h2)
    · exact Or.inr ⟨h1.trans h2, h1s.trans h2s⟩

/-- Final user-facing order: ascending start time (spec.md §4.3). -/
def startOrder (a b : Segment) : Prop :=
  a.start ≤ b.start

instance : DecidableRel startOrder :=
  fun a b => inferInstanceAs (Decidable (a.start ≤ b.start))

instance : IsTotal Segment startOrder where
  total a b := le_total a.start b.start

instance : IsTrans Segment startOrder where
  trans _ _ _ hab hbc := le_trans hab hbc

/-- The ranked candidate list fed to the greedy pass: candidates sorted by
descending score, ties by earlier start. -/
def candidateRanking (curve : List (ℚ × ℚ)) (d : ℚ) : List Segment :=
  List.insertionSort scoreOrder (mkCandidates curve d)

/-- Modelled from the spec: the greedy pass of `select_best_segments` —
walk the ranked candidates, accept one only if its start is at least
`sep = clip_duration + min_gap` away from every already-accepted start, and
stop once `count` are accepted (spec.md §4.3, README lines 268–279). -/
def greedyPick (count : ℕ) (sep : ℚ) : List Segment → List Segment → List Segment
  | [], acc => acc
  | c :: rest, acc =>
    if count ≤ acc.length then acc
    else if acc.any (fun t => decide (|c.start - t.start| < sep)) then
      greedyPick count sep rest acc
    else
      greedyPick count sep rest (acc ++ [c])

/-- Modelled from the spec:
`select(curve, clip_duration, clip_count, min_gap)` — rank candidates, pick
greedily, re-sort the accepted ones by start time ascending (spec.md §4.3). -/
def select (curve : List (ℚ × ℚ)) (d : ℚ) (count : ℕ) (g : ℚ) : List Segment :=
  List.insertionSort startOrder (greedyPick count (d + g) (candidateRanking curve d) [])

/- ========================================================================
   Part 4 — Job pipeline state machine (modelled from spec.md §4.4;
   `backend/server.py` is missing from the tree).
   ======================================================================== -/

/-- Modelled from the spec: the pipeline stages (spec.md §4.4). -/
inductive Stage
  | queued
  | downloading
  | analyzing
  | processing
  | completed
  | failed
deriving DecidableEq, Repr

/-- Pipeline order of the live stages. -/
def stageRank : Stage → ℕ
  | Stage.queued => 0
  | Stage.downloading => 1
  | Stage.analyzing => 2
  | Stage.processing => 3
  | Stage.completed => 4
  | Stage.failed => 5

/-- Modelled from the spec: progress reported while in a stage, as a function
of the stage-local completion fraction `f ∈ [0,1]` — Queued = 0,
Downloading = 10–25, Analyzing = 30–60, Processing = 60–100, Completed = 100
(spec.md §4.4). `Failed` publishes no formula of its own (progress freezes,
see `failJob`); it never occurs in a live-progress trace. -/
def stageProgress : Stage → ℚ → ℚ
  | Stage.queued, _ => 0
  | Stage.downloading, f => 10 + 15 * f
  | Stage.analyzing, f => 30 + 30 * f
  | Stage.processing, f => 60 + 40 * f
  | Stage.completed, _ => 100
  | Stage.failed, _ => 0

/-- Progress published for one snapshot (stage, stage-local fraction). -/
def progressOf (p : Stage × ℚ) : ℚ :=
  stageProgress p.1 p.2

/-- A well-formed live snapshot: not `Failed`, fraction within [0,1]. -/
def snapOK (p : Stage × ℚ) : Prop :=
  p.1 ≠ Stage.failed ∧ 0 ≤ p.2 ∧ p.2 ≤ 1

/-- One legal pipeline step: either the stage advances, or the stage is
unchanged and its completion fraction does not decrease (spec.md §4.4). -/
def stepOK (p q : Stage × ℚ) : Prop :=
  stageRank p.1 < stageRank q.1 ∨ (p.1 = q.1 ∧ p.2 ≤ q.2)

/-- Modelled from the spec: a job record as exposed by the job store
(spec.md §3, §6). -/
structure Job where
  stage : Stage
  progress : ℚ
  message : String
  clips : List Segment
  error : Option String

/-- Modelled from the spec: entering `Failed` — the stage flips to `Failed`,
`error` is set, and `progress` is left at its last value (spec.md §4.4). -/
def failJob (j : Job) (msg : String) : Job :=
  { j with stage := Stage.failed, error := some msg }

/-- Modelled from the spec: the end of the Processing stage — each selected
segment is rendered; the job fails only when there were segments and every
render failed, otherwise it completes with the successfully rendered clips
(spec.md §4.4, §7, Scenario C/D). -/
def finishJob (selected : List Segment) (renderOk : Segment → Bool) : Stage × List Segment :=
  let rendered := selected.filter renderOk
  if selected ≠ [] ∧ rendered = [] then (Stage.failed, rendered)
  else (Stage.completed, rendered)

/-- Modelled from the spec: the face-presence analyzer's score
(spec.md §4.1, README lines 257–261) — `face_ratio = total_face_area /
frame_area; score = min(100, face_ratio * 500 + face_count * 10)`. -/
def faceScore (totalFaceArea frameArea : ℚ) (faceCount : ℕ) : ℚ :=
  min 100 (totalFaceArea / frameArea * 500 + (faceCount : ℚ) * 10)

/- ========================================================================
   Part 5 — Theorems.
   ======================================================================== -/

lemma sum_if_div (w : Analyzer → ℚ) (avail : Analyzer → Bool) (T : ℚ) :
    ∀ l : List Analyzer,
      (l.map (fun a => if avail a then w a / T else 0)).sum
        = ((l.filter avail).map w).sum / T := by
  intro l
  induction l with
  | nil => simp
  | cons a t ih =>
    by_cases h : avail a
    · simp [List.filter_cons, h, ih, add_div]
    · simp [List.filter_cons, h, ih]

lemma sum_renormalize (w : Analyzer → ℚ) (avail : Analyzer → Bool)
    (h : availTotal w avail ≠ 0) :
    (analyzers.map (renormalize w avail)).sum = 1 := by
  unfold renormalize
  rw [sum_if_div]
  exact div_self h

/-- C1 counterexample: renormalizing the default table over the four
non-semantic analyzers gives audio weight 2/7 ≈ 0.286, not the fallback
table's 0.30 — so the fallback table is *not* the renormalization of the
default table. -/
theorem C1_renormalize_ne_fallback :
    renormalize defaultWeights onlySemanticUnavailable Analyzer.audio = 2 / 7 ∧
    fallbackWeights Analyzer.audio = 3 / 10 ∧
    ¬ ∀ a, renormalize defaultWeights onlySemanticUnavailable a = fallbackWeights a := by
  have h1 : availTotal defaultWeights onlySemanticUnavailable = 7 / 10 := by
    simp [availTotal, analyzers, onlySemanticUnavailable, defaultWeights]
    norm_num
  have h2 : renormalize defaultWeights onlySemanticUnavailable Analyzer.audio = 2 / 7 := by
    simp [renormalize, onlySemanticUnavailable, defaultWeights, h1]
    norm_num
  refine ⟨h2, rfl, fun hall => ?_⟩
  have := hall Analyzer.audio
  rw [h2] at this
  norm_num [fallbackWeights] at this

/-- C1 (amended): when exactly the semantic analyzer is unavailable, fusion
uses the hard-coded four-signal fallback table (audio 0.30, motion 0.25,
scene 0.20, faces 0.25), which sums to 1.0; for every availability pattern
with nonzero remaining weight, renormalization rescales the remaining default
weights to sum to 1.0 preserving their relative ratios. (The fallback table
is a special case prescribed by the spec, not the result of renormalizing the
default table.) -/
theorem C1_active_weight_table :
    (∀ a, activeWeights onlySemanticUnavailable a = fallbackWeights a) ∧
    (analyzers.map fallbackWeights).sum = 1 ∧
    (∀ avail : Analyzer → Bool, availTotal defaultWeights avail ≠ 0 →
      (analyzers.map (renormalize defaultWeights avail)).sum = 1 ∧
      ∀ a b : Analyzer, avail a = true → avail b = true →
        renormalize defaultWeights avail a * defaultWeights b
          = renormalize defaultWeights avail b * defaultWeights a) := by
  refine ⟨?_, ?_, ?_⟩
  · intro a
    simp [activeWeights, onlySemanticUnavailable]
  · norm_num [analyzers, fallbackWeights]
  · intro avail h
    refine ⟨sum_renormalize _ _ h, ?_⟩
    intro a b ha hb
    simp only [renormalize, ha, hb, if_true]
    rw [div_mul_eq_mul_div, div_mul_eq_mul_div, mul_comm]

/-- Witness for C1: the semantic-unavailable call uses the fallback audio
weight, and renormalizing over the all-available pattern sums to 1. -/
theorem C1_witness :
    activeWeights onlySemanticUnavailable Analyzer.audio = fallbackWeights Analyzer.audio ∧
    (analyzers.map (renormalize defaultWeights (fun _ => true))).sum = 1 := by
  constructor
  · exact C1_active_weight_table.1 Analyzer.audio
  · refine (C1_active_weight_table.2.2 (fun _ => true) ?_).1
    norm_num [availTotal, analyzers, defaultWeights]

/-- C2: every curve produced by `fuse` from a strictly increasing sample grid,
nonnegative active weights summing to 1, and per-analyzer scores in [0,100],
has every fused score in [0,100] and strictly increasing, duplicate-free
timestamps. -/
theorem C2_fuse_curve_invariants :
    ∀ (samples : List Sample) (w : Analyzer → ℚ),
      (∀ a ∈ analyzers, 0 ≤ w a) →
      (analyzers.map w).sum = 1 →
      (∀ s ∈ samples, ∀ a v, s.scores a = some v → 0 ≤ v ∧ v ≤ 100) →
      samples.Chain' (fun s1 s2 => s1.t < s2.t) →
      (∀ p ∈ fuse samples w, 0 ≤ p.2 ∧ p.2 ≤ 100) ∧
      (fuse samples w).Chain' (fun p q => p.1 < q.1) ∧
      (fuse samples w).Pairwise (fun p q => p.1 ≠ q.1) := by
  intro samples w hw hsum hsc hchain
  have hbound : ∀ s ∈ samples, 0 ≤ fusedScore w s.scores ∧ fusedScore w s.scores ≤ 100 := by
    intro s hs
    constructor
    · apply List.sum_nonneg
      intro x hx
      rw [List.mem_map] at hx
      obtain ⟨a, ha, rfl⟩ := hx
      unfold contrib
      cases hsa : s.scores a with
      | none => simp
      | some v => exact mul_nonneg (hw a ha) (hsc s hs a v hsa).1
    · calc (analyzers.map (contrib w s.scores)).sum
          ≤ (analyzers.map (fun a => w a * 100)).sum := by
            apply List.sum_le_sum
            intro a ha
            unfold contrib
            cases hsa : s.scores a with
            | none => exact mul_nonneg (hw a ha) (by norm_num)
            | some v => exact mul_le_mul_of_nonneg_left (hsc s hs a v hsa).2 (hw a ha)
        _ = 100 := by rw [List.sum_map_mul_right, hsum, one_mul]
  have hc : (fuse samples w).Chain' (fun p q => p.1 < q.1) := by
    rw [fuse, List.chain'_map]
    exact hchain
  refine ⟨?_, hc, ?_⟩
  · intro p hp
    rw [fuse, List.mem_map] at hp
    obtain ⟨s, hs, rfl⟩ := hp
    exact hbound s hs
  · haveI : IsTrans (ℚ × ℚ) (fun p q => p.1 < q.1) := ⟨fun _ _ _ h1 h2 => lt_trans h1 h2⟩
    exact (List.chain'_iff_pairwise.mp hc).imp fun h => ne_of_lt h

/-- Witness for C2: a concrete two-sample grid fused with the default
weights. -/
theorem C2_witness :
    (∀ p ∈ fuse [⟨0, fun _ => some 50⟩, ⟨1, fun _ => some 60⟩] defaultWeights,
        0 ≤ p.2 ∧ p.2 ≤ 100) ∧
    (fuse [⟨0, fun _ => some 50⟩, ⟨1, fun _ => some 60⟩] defaultWeights).Chain'
        (fun p q => p.1 < q.1) ∧
    (fuse [⟨0, fun _ => some 50⟩, ⟨1, fun _ => some 60⟩] defaultWeights).Pairwise
        (fun p q => p.1 ≠ q.1) := by
  apply C2_fuse_curve_invariants
  · intro a _
    cases a <;> norm_num [defaultWeights]
  · norm_num [analyzers, defaultWeights]
  · intro s hs a v hv
    rcases List.mem_cons.mp hs with h | h
    · subst h; simp at hv; subst hv; norm_num
    · rcases List.mem_cons.mp h with h2 | h2
      · subst h2; simp at hv; subst hv; norm_num
      · simp at h2
  · norm_num [List.chain'_cons]

/-- C7: the face-presence score equals `min(100, 500 × ratio + 10 × count)`
with `ratio = total_face_area / frame_area`, and it never exceeds 100. -/
theorem C7_face_score_formula (A F : ℚ) (c : ℕ) :
    faceScore A F c = min 100 (500 * (A / F) + 10 * (c : ℚ)) ∧
    faceScore A F c ≤ 100 := by
  constructor
  · unfold faceScore
    congr 1
    ring
  · exact min_le_left _ _

/-- Minimum-separation relation between two selected segments. -/
def sepApart (sep : ℚ) (a b : Segment) : Prop :=
  sep ≤ |a.start - b.start|

lemma sepApart_symm (sep : ℚ) : Symmetric (sepApart sep) := by
  intro a b h
  unfold sepApart at h ⊢
  rwa [abs_sub_comm]

lemma greedyPick_pairwise (count : ℕ) (sep : ℚ) :
    ∀ (cs acc : List Segment), acc.Pairwise (sepApart sep) →
      (greedyPick count sep cs acc).Pairwise (sepApart sep) := by
  intro cs
  induction cs with
  | nil =>
    intro acc h
    simpa [greedyPick] using h
  | cons c rest ih =>
    intro acc h
    simp only [greedyPick]
    by_cases h1 : count ≤ acc.length
    · simpa [h1] using h
    · simp only [if_neg h1]
      by_cases h2 : acc.any (fun t => decide (|c.start - t.start| < sep)) = true
      · simpa [h2] using ih acc h
      · simp only [h2, if_false]
        apply ih
        rw [List.pairwise_append]
        refine ⟨h, List.pairwise_singleton _ _, ?_⟩
        intro a ha b hb
        rw [List.mem_singleton] at hb
        subst hb
        have h3 : ¬ |b.start - a.start| < sep := by
          intro hlt
          exact h2 (List.any_eq_true.mpr ⟨a, ha, by simpa using hlt⟩)
        have h4 := le_of_not_lt h3
        rwa [abs_sub_comm] at h4

lemma greedyPick_length (count : ℕ) (sep : ℚ) :
    ∀ (cs acc : List Segment), acc.length ≤ count →
      (greedyPick count sep cs acc).length ≤ count := by
  intro cs
  induction cs with
  | nil =>
    intro acc h
    simpa [greedyPick] using h
  | cons c rest ih =>
    intro acc h
    simp only [greedyPick]
    by_cases h1 : count ≤ acc.length
    · simpa [h1] using h
    · simp only [if_neg h1]
      by_cases h2 : acc.any (fun t => decide (|c.start - t.start| < sep)) = true
      · simpa [h2] using ih acc h
      · simp only [h2, if_false]
        apply ih
        simp only [List.length_append, List.length_singleton]
        omega

/-- C3: any two distinct segments in a final selection are at least
`clip_duration + min_gap` apart in start time, and the returned sequence is
ordered by start time ascending. -/
theorem C3_select_separation_and_order (curve : List (ℚ × ℚ)) (d : ℚ) (count : ℕ) (g : ℚ) :
    (select curve d count g).Pairwise (fun a b => d + g ≤ |a.start - b.start|) ∧
    (select curve d count g).Sorted startOrder := by
  constructor
  · have hp : (greedyPick count (d + g) (candidateRanking curve d) []).Pairwise
        (sepApart (d + g)) :=
      greedyPick_pairwise count (d + g) (candidateRanking curve d) [] List.Pairwise.nil
    have hperm := List.perm_insertionSort startOrder
      (greedyPick count (d + g) (candidateRanking curve d) [])
    exact (hperm.pairwise_iff (fun h => sepApart_symm (d + g) h)).mpr hp
  · exact List.sorted_insertionSort startOrder _

/-- C4: selection is a pure, deterministic function of (curve, clip_duration,
clip_count, min_gap) — equal inputs give byte-identical output, every run
being a re-run of the same total function — and the candidate ranking is
totally ordered by descending score with ties between equal-score candidates
always broken in favor of the earlier start time. -/
theorem C4_select_deterministic :
    (∀ (curve : List (ℚ × ℚ)) (d : ℚ) (count : ℕ) (g : ℚ)
       (curve2 : List (ℚ × ℚ)) (d2 : ℚ) (count2 : ℕ) (g2 : ℚ),
        curve = curve2 → d = d2 → count = count2 → g = g2 →
        select curve d count g = select curve2 d2 count2 g2) ∧
    (∀ (curve : List (ℚ × ℚ)) (d : ℚ), (candidateRanking curve d).Sorted scoreOrder) ∧
    (∀ a b : Segment, a.score = b.score → (scoreOrder a b ↔ a.start ≤ b.start)) := by
  refine ⟨?_, ?_, ?_⟩
  · intro curve d count g curve2 d2 count2 g2 h1 h2 h3 h4
    subst h1; subst h2; subst h3; subst h4
    rfl
  · intro curve d
    exact List.sorted_insertionSort scoreOrder _
  · intro a b h
    unfold scoreOrder
    constructor
    · rintro (hlt | ⟨-, hle⟩)
      · rw [h] at hlt
        exact absurd hlt (lt_irrefl _)
      · exact hle
    · intro hle
      exact Or.inr ⟨h, hle⟩

/-- Witness for C4: determinism and the tie-break evaluated at concrete
inputs (two candidates of equal score but different starts). -/
theorem C4_witness :
    select [(0, 50), (1, 50)] 1 1 0 = select [(0, 50), (1, 50)] 1 1 0 ∧
    (scoreOrder ⟨0, 1, 50⟩ ⟨2, 3, 50⟩ ↔ (0 : ℚ) ≤ 2) := by
  constructor
  · exact C4_select_deterministic.1 [(0, 50), (1, 50)] 1 1 0 [(0, 50), (1, 50)] 1 1 0
      rfl rfl rfl rfl
  · exact C4_select_deterministic.2.2 ⟨0, 1, 50⟩ ⟨2, 3, 50⟩ rfl

/-- C5: the selector is total, returns at most `clip_count` segments, and on
20-second media with `clip_duration = 60` returns no segment at all, after
which the job finishes `Completed` with an empty clip list rather than
`Failed`. -/
theorem C5_select_bounded_and_short_media :
    (∀ (curve : List (ℚ × ℚ)) (d : ℚ) (count : ℕ) (g : ℚ),
        (select curve d count g).length ≤ count) ∧
    (∀ (curve : List (ℚ × ℚ)) (count : ℕ) (g : ℚ),
        mediaDuration curve = 20 →
        select curve 60 count g = [] ∧
        ∀ renderOk : Segment → Bool,
          finishJob (select curve 60 count g) renderOk = (Stage.completed, [])) := by
  constructor
  · intro curve d count g
    have hlen := greedyPick_length count (d + g) (candidateRanking curve d) []
      (by simp)
    have hperm := List.perm_insertionSort startOrder
      (greedyPick count (d + g) (candidateRanking curve d) [])
    calc (select curve d count g).length
        = (greedyPick count (d + g) (candidateRanking curve d) []).length := hperm.length_eq
      _ ≤ count := hlen
  · intro curve count g h
    have hempty : select curve 60 count g = [] := by
      have hc : candidateStarts (mediaDuration curve) 60 = [] := by
        rw [h]
        simp only [candidateStarts]
        norm_num
      simp [select, candidateRanking, mkCandidates, hc, greedyPick]
    refine ⟨hempty, fun renderOk => ?_⟩
    rw [hempty]
    simp [finishJob]

/-- Witness for C5: a concrete 20-second curve with a 60-second window. -/
theorem C5_witness :
    select [(0, 10), (20, 30)] 60 5 2 = [] ∧
    finishJob (select [(0, 10), (20, 30)] 60 5 2) (fun _ => true) = (Stage.completed, []) ∧
    (select [(0, 10), (20, 30)] 60 5 2).length ≤ 5 := by
  have h : mediaDuration [((0 : ℚ), (10 : ℚ)), (20, 30)] = 20 := by
    norm_num [mediaDuration]
  have h2 := C5_select_bounded_and_short_media.2 [(0, 10), (20, 30)] 5 2 h
  exact ⟨h2.1, h2.2 (fun _ => true),
    C5_select_bounded_and_short_media.1 [(0, 10), (20, 30)] 60 5 2⟩

lemma stageProgress_bounds (s : Stage) (f : ℚ) (hs : s ≠ Stage.failed)
    (h0 : 0 ≤ f) (h1 : f ≤ 1) :
    0 ≤ stageProgress s f ∧ stageProgress s f ≤ 100 := by
  cases s
  case failed => exact absurd rfl hs
  all_goals
    simp only [stageProgress]
    constructor <;> linarith

lemma stepOK_progress_le {p q : Stage × ℚ} (hp : snapOK p) (hq : snapOK q)
    (h : stepOK p q) : progressOf p ≤ progressOf q := by
  obtain ⟨s, f⟩ := p
  obtain ⟨s2, f2⟩ := q
  obtain ⟨hs, hf0, hf1⟩ := hp
  obtain ⟨hs2, hf20, hf21⟩ := hq
  simp only [progressOf]
  rcases h with hlt | ⟨heq, hle⟩
  · simp only at hs hs2 hlt hf0 hf1 hf20 hf21
    cases s <;> cases s2 <;>
      first
        | exact absurd rfl hs
        | exact absurd rfl hs2
        | (simp only [stageProgress]; linarith)
        | norm_num [stageRank] at hlt
  · simp only at heq hle
    subst heq
    cases s
    case failed => exact absurd rfl hs
    all_goals
      simp only [stageProgress]
      linarith

lemma chain_progressOf :
    ∀ run : List (Stage × ℚ), (∀ p ∈ run, snapOK p) → run.Chain' stepOK →
      (run.map progressOf).Chain' (· ≤ ·) := by
  intro run
  induction run with
  | nil =>
    intro _ _
    simp
  | cons a t ih =>
    intro hmem hch
    cases t with
    | nil => simp
    | cons b t2 =>
      rw [List.map_cons, List.map_cons, List.chain'_cons]
      rw [List.chain'_cons] at hch
      refine ⟨stepOK_progress_le (hmem a (by simp)) (hmem b (by simp)) hch.1, ?_⟩
      have h2 := ih (fun p hp => hmem p (List.mem_cons_of_mem a hp)) hch.2
      simpa using h2

/-- C6: along any legal run of the pipeline (stages only advance through
Queued → Downloading → Analyzing → Processing → Completed, stage-local
completion fractions in [0,1] never decrease within a stage), the published
progress sequence stays in [0,100] and is monotonically non-decreasing; and
entering `Failed` freezes `progress` at its last value while setting
`error`. -/
theorem C6_progress_monotone :
    ∀ run : List (Stage × ℚ),
      (∀ p ∈ run, snapOK p) → run.Chain' stepOK →
      ((run.map progressOf).Chain' (· ≤ ·) ∧
        ∀ x ∈ run.map progressOf, 0 ≤ x ∧ x ≤ 100) ∧
      ∀ (j : Job) (msg : String),
        (failJob j msg).progress = j.progress ∧
        (failJob j msg).error = some msg ∧
        (failJob j msg).stage = Stage.failed := by
  intro run hmem hch
  refine ⟨⟨chain_progressOf run hmem hch, ?_⟩, ?_⟩
  · intro x hx
    rw [List.mem_map] at hx
    obtain ⟨p, hp, rfl⟩ := hx
    obtain ⟨hs, h0, h1⟩ := hmem p hp
    exact stageProgress_bounds p.1 p.2 hs h0 h1
  · intro j msg
    exact ⟨rfl, rfl, rfl⟩

/-- Witness for C6: a concrete legal run through all five live stages, and a
concrete job frozen by `failJob`. -/
theorem C6_witness :
    (([(Stage.queued, 0), (Stage.downloading, 1/2), (Stage.downloading, 1),
       (Stage.analyzing, 0), (Stage.analyzing, 1), (Stage.processing, 1/2),
       (Stage.completed, 1)].map progressOf).Chain' (· ≤ ·)) ∧
    (failJob ⟨Stage.processing, 75, "rendering", [], none⟩ "boom").progress = 75 := by
  have h := C6_progress_monotone
    [(Stage.queued, 0), (Stage.downloading, 1/2), (Stage.downloading, 1),
     (Stage.analyzing, 0), (Stage.analyzing, 1), (Stage.processing, 1/2),
     (Stage.completed, 1)]
    (by
      intro p hp
      fin_cases hp <;> exact ⟨by decide, by norm_num, by norm_num⟩)
    (by norm_num [List.chain'_cons, stepOK, stageRank])
  exact ⟨h.1.1, (h.2 ⟨Stage.processing, 75, "rendering", [], none⟩ "boom").1⟩

/-- C8: a url failing `isValidYouTubeUrl` makes `handleSubmit` set the
validation error and never issue a `processVideo` request; a request is
issued only when the url is non-empty and matches one of the four accepted
YouTube URL patterns (each requiring an 11-character video id). -/
theorem C8_validation_gates_processing :
    ∀ (url : String) (d c : ℕ),
      (isValidYouTubeUrl url = false →
        (handleSubmit url d c).request = none ∧
        (handleSubmit url d c).validationError = some "Please enter a valid YouTube URL") ∧
      ((handleSubmit url d c).request ≠ none →
        isValidYouTubeUrl url = true ∧
        url ≠ "" ∧ ∃ pr ∈ patternTable, testPattern url.data pr.1 pr.2 = true) := by
  intro url d c
  constructor
  · intro h
    simp [handleSubmit, h]
  · intro h
    have hv : isValidYouTubeUrl url = true := by
      by_contra hne
      rw [Bool.not_eq_true] at hne
      simp [handleSubmit, hne] at h
    by_cases he : url = ""
    · rw [isValidYouTubeUrl, if_pos he] at hv
      exact absurd hv (by simp)
    · rw [isValidYouTubeUrl, if_neg he] at hv
      obtain ⟨pr, hpr, hmatch⟩ := List.any_eq_true.mp hv
      exact ⟨by rw [isValidYouTubeUrl, if_neg he]; exact List.any_eq_true.mpr ⟨pr, hpr, hmatch⟩,
        he, pr, hpr, hmatch⟩

/-- Witness for C8: a malformed url is rejected without a request; a
well-formed watch url passes validation and matches a pattern. -/
theorem C8_witness :
    ((handleSubmit "hello" 60 5).request = none ∧
      (handleSubmit "hello" 60 5).validationError = some "Please enter a valid YouTube URL") ∧
    (isValidYouTubeUrl "https://www.youtube.com/watch?v=dQw4w9WgXcQ" = true ∧
      "https://www.youtube.com/watch?v=dQw4w9WgXcQ" ≠ "" ∧
      ∃ pr ∈ patternTable,
        testPattern "https://www.youtube.com/watch?v=dQw4w9WgXcQ".data pr.1 pr.2 = true) := by
  constructor
  · exact (C8_validation_gates_processing "hello" 60 5).1 (by decide)
  · exact (C8_validation_gates_processing "https://www.youtube.com/watch?v=dQw4w9WgXcQ" 60 5).2
      (by decide)

/-- Witness for C3: the separation and ordering invariants evaluated on a
concrete curve. -/
theorem C3_witness :
    (select [(0, 10), (5, 80), (10, 20), (15, 90), (20, 30)] 5 2 2).Pairwise
      (fun a b => (5 : ℚ) + 2 ≤ |a.start - b.start|) ∧
    (select [(0, 10), (5, 80), (10, 20), (15, 90), (20, 30)] 5 2 2).Sorted startOrder :=
  C3_select_separation_and_order [(0, 10), (5, 80), (10, 20), (15, 90), (20, 30)] 5 2 2

/-- Witness for C7: the face score formula evaluated at a concrete frame. -/
theorem C7_witness :
    faceScore 1 10 2 = min 100 (500 * ((1 : ℚ) / 10) + 10 * ((2 : ℕ) : ℚ)) ∧
    faceScore 1 10 2 ≤ 100 :=
  C7_face_score_formula 1 10 2
